import Mathlib

/-!
Verification of the orbits repository core: a shallow embedding of
`keplerorbit.py` (Kepler solver), the simulation-clock part of
`solarsystem.py`, and the coordinate projection of `zoomsprite.py`,
together with theorems settling the specification's claims.

Modelling conventions:
* Python floats are modelled as real numbers.
* Python operations that can raise (`/` by zero raises `ZeroDivisionError`,
  `math.sqrt` of a negative raises `ValueError`) are modelled as
  `Option`-valued functions returning `none` on the raising input.
* The unbounded `while` loop of `KeplerOrbit._getEccentricAnomaly` is
  modelled with an explicit fuel parameter: `none` means the loop has not
  returned within `fuel` passes.
* Instants (`datetime.datetime`) are modelled as real numbers measured in
  seconds, so that subtraction of instants is real subtraction.
-/

open Real

noncomputable section

/-- Python float division `a / b`: raises `ZeroDivisionError` when `b == 0`
(also for floats), modelled as `none`. -/
def pyDiv (a b : ℝ) : Option ℝ := if b = 0 then none else some (a / b)

/-- Python `math.sqrt x`: raises `ValueError` for negative `x`, modelled as
`none`. -/
def pySqrt (x : ℝ) : Option ℝ := if x < 0 then none else some (Real.sqrt x)

/-- Python `math.isclose(a, b, rel_tol, abs_tol)`, which holds iff
`abs(a-b) <= max(rel_tol * max(abs(a), abs(b)), abs_tol)`.  Note the default
`rel_tol` is `1e-9` when only `abs_tol` is passed at the call site. -/
def isclose (relTol absTol a b : ℝ) : Prop :=
  |a - b| ≤ max (relTol * max |a| |b|) absTol

/-- State of a `keplerorbit.KeplerOrbit` object: the orbital elements
`e, a, T, O, o, M, my` and the epoch set in `__init__`, and the derived
members `f, r, v` written by `updatePosition`. -/
structure KeplerOrbit where
  e : ℝ
  a : ℝ
  T : ℝ
  O : ℝ
  o : ℝ
  M : ℝ
  my : ℝ
  epoch : ℝ
  f : ℝ
  r : ℝ
  v : ℝ

namespace KeplerOrbit

/-- `KeplerOrbit._maxIterations = 100`. -/
def maxIterations : ℕ := 100

/-- `KeplerOrbit._accuracy = 0.0000000001`, passed to `math.isclose` as
`abs_tol`. -/
def accuracy : ℝ := 1e-10

open Classical in
/-- The `while` loop of `KeplerOrbit._getEccentricAnomaly`.  Each pass
computes `E = M + e * sin(prevE)` and returns `E` when
`math.isclose(E, prevE, abs_tol=_accuracy)` (with the default
`rel_tol = 1e-9`) holds or when `iterations > _maxIterations`.  The Python
local `iterations` is initialised to `0` and never incremented in the source;
it is threaded through unchanged here, exactly as in the source.  `fuel` is
the number of loop passes we are willing to unfold; `none` means the loop has
not returned within that many passes. -/
def getEccentricAnomalyAux (k : KeplerOrbit) (M : ℝ) :
    ℕ → ℝ → ℕ → Option ℝ
  | 0, _, _ => none
  | fuel + 1, prevE, iterations =>
    let E := M + k.e * Real.sin prevE
    if isclose 1e-9 accuracy E prevE ∨ iterations > maxIterations then some E
    else getEccentricAnomalyAux k M fuel E iterations

/-- `KeplerOrbit._getEccentricAnomaly(M)`: the loop seeded with
`prevE = M` and `iterations = 0`. -/
def getEccentricAnomaly (k : KeplerOrbit) (M : ℝ) (fuel : ℕ) : Option ℝ :=
  getEccentricAnomalyAux k M fuel M 0

/-- `KeplerOrbit._getTrueAnomaly(E)`:
`2 * atan(sqrt((1 + e) / (1 - e)) * tan(E / 2))`; the division raises for
`e = 1` and the square root raises for `e > 1` (argument negative). -/
def getTrueAnomaly (k : KeplerOrbit) (E : ℝ) : Option ℝ :=
  (pyDiv (1 + k.e) (1 - k.e)).bind fun q =>
    (pySqrt q).map fun s => 2 * Real.arctan (s * Real.tan (E / 2))

/-- `KeplerOrbit._getDistance(E) = a * (1 - e * cos E)`. -/
def getDistance (k : KeplerOrbit) (E : ℝ) : ℝ :=
  k.a * (1 - k.e * Real.cos E)

/-- `KeplerOrbit._getSpeed() = sqrt(my * (2 / r - 1 / a))`, reading the
member `self.r` as the argument `r`. -/
def getSpeed (k : KeplerOrbit) (r : ℝ) : Option ℝ :=
  (pyDiv 2 r).bind fun u =>
    (pyDiv 1 k.a).bind fun w => pySqrt (k.my * (u - w))

/-- `KeplerOrbit._getMeanAnomaly(t) = 2 * pi * t / T`. -/
def getMeanAnomaly (k : KeplerOrbit) (t : ℝ) : Option ℝ :=
  pyDiv (2 * Real.pi * t) k.T

/-- `KeplerOrbit.updatePosition(time)`: computes
`t = (time - epoch).total_seconds()`, `M = _getMeanAnomaly(t) + self.M`,
`E = _getEccentricAnomaly(M)`, and writes the members
`f = _getTrueAnomaly(E)`, `r = _getDistance(E)`, `v = _getSpeed()`;
all other members are left unchanged. -/
def updatePosition (k : KeplerOrbit) (time : ℝ) (fuel : ℕ) :
    Option KeplerOrbit :=
  (getMeanAnomaly k (time - k.epoch)).bind fun m =>
    (getEccentricAnomaly k (m + k.M) fuel).bind fun E =>
      (getTrueAnomaly k E).bind fun f =>
        (getSpeed k (getDistance k E)).map fun v =>
          ⟨k.e, k.a, k.T, k.O, k.o, k.M, k.my, k.epoch,
            f, getDistance k E, v⟩

/-- `KeplerOrbit.__init__(e, a, T, O, o, M, my)`: stores the elements with no
domain validation, sets the epoch, and calls `updatePosition(epoch)` to
initialise `f, r, v` (their pre-call `None` is modelled as `0`; on success it
is overwritten).  Construction "fails" exactly when that call raises. -/
def init (e a T O o M my epoch : ℝ) (fuel : ℕ) : Option KeplerOrbit :=
  updatePosition ⟨e, a, T, O, o, M, my, epoch, 0, 0, 0⟩ epoch fuel

end KeplerOrbit

namespace SolarSystem

/-- The simulation-clock state owned by `solarsystem.SolarSystem`:
`Planet.time` (the current simulated instant, here `time`), `targetTime`,
`timeStep`, `speedIndex` and the `targetTimeReached` flag. -/
structure Clock where
  time : ℝ
  targetTime : ℝ
  timeStep : ℝ
  speedIndex : ℕ
  targetTimeReached : Bool

/-- `SolarSystem.FREEZE_INDEX = 12`, the `SPEED` index of time freeze. -/
def freezeIndex : ℕ := 12

/-- `SolarSystem.updateTimeStep()`:
`targetTime = Planet.time + SPEED[speedIndex][0]`,
`timeStep = (targetTime - Planet.time).total_seconds() / fps`, and
`targetTimeReached = False`.  `spd i` is the number of seconds the
`relativedelta` `SPEED[i][0]` adds at the current simulated date. -/
def updateTimeStep (spd : ℕ → ℝ) (fps : ℝ) (s : Clock) : Clock :=
  let target := s.time + spd s.speedIndex
  ⟨s.time, target, (target - s.time) / fps, s.speedIndex, false⟩

open Classical in
/-- The clock part of `SolarSystem.update()`: advance
`Planet.time += timeStep`; then, if the direction-appropriate target has been
reached or passed (`speedIndex > FREEZE_INDEX` and `time >= targetTime`, or
`speedIndex < FREEZE_INDEX` and `time <= targetTime`), or if
`targetTimeReached` was already set by another method, run
`updateTimeStep()`. -/
def update (spd : ℕ → ℝ) (fps : ℝ) (s : Clock) : Clock :=
  let t := s.time + s.timeStep
  let advanced : Clock :=
    ⟨t, s.targetTime, s.timeStep, s.speedIndex, s.targetTimeReached⟩
  if s.targetTimeReached = true ∨
      (s.speedIndex > freezeIndex ∧ t ≥ s.targetTime) ∨
      (s.speedIndex < freezeIndex ∧ t ≤ s.targetTime) then
    updateTimeStep spd fps advanced
  else advanced

/-- The `K_F2` branch of `SolarSystem.eventHandler` after a successful date
parse: it executes `Planet.time = time` and nothing else — in particular it
does not touch `speedIndex`, `targetTime`, `timeStep` or
`targetTimeReached`. -/
def jumpTo (s : Clock) (instant : ℝ) : Clock :=
  ⟨instant, s.targetTime, s.timeStep, s.speedIndex, s.targetTimeReached⟩

end SolarSystem

/-- Python float floor division `a // b`, which rounds the quotient toward
negative infinity. -/
def pyFloorDiv (a b : ℝ) : ℝ := ⌊a / b⌋

namespace OrbitEllipse

/-- The vertex stored by `OrbitEllipse.createVertexList` for an orbital-plane
position `(x, y)`: the pair `(x, -y)`. -/
def mkVertex (x y : ℝ) : ℝ × ℝ := (x, -y)

/-- The screen point appended by `OrbitEllipse.redraw` for a stored vertex
`p`: `(zoom * p.1 // scale + x0, zoom * p.2 // scale + y0)`. -/
def projectPoint (zoom scale x0 y0 : ℝ) (p : ℝ × ℝ) : ℝ × ℝ :=
  (pyFloorDiv (zoom * p.1) scale + x0, pyFloorDiv (zoom * p.2) scale + y0)

end OrbitEllipse

namespace Planet

/-- The coordinate transform applied by `Planet.update` (lines 133-134 of
`zoomsprite.py`) to the cartesian position `(x, y)`:
`x * zoom // scale` and `-y * zoom // scale`. -/
def screenOffset (zoom scale x y : ℝ) : ℝ × ℝ :=
  (pyFloorDiv (x * zoom) scale, pyFloorDiv (-y * zoom) scale)

end Planet

end

/-- Claim C9: for every planar offset `(x, y)`, zoom, scale and origin
`(x0, y0)`, the screen projection used by `OrbitEllipse.redraw` (and, before
the sprite-centering shift, by `Planet.update`) is
`floor(x * zoom / scale) + x0` and `floor(-y * zoom / scale) + y0`, the
division flooring toward negative infinity; consequently the offset `(0,0)`
projects exactly onto the origin. -/
theorem project_is_floor_and_fixes_origin :
    (∀ zoom scale x0 y0 x y : ℝ,
        OrbitEllipse.projectPoint zoom scale x0 y0 (OrbitEllipse.mkVertex x y) =
          ((⌊x * zoom / scale⌋ : ℝ) + x0, (⌊-y * zoom / scale⌋ : ℝ) + y0) ∧
        Planet.screenOffset zoom scale x y =
          ((⌊x * zoom / scale⌋ : ℝ), (⌊-y * zoom / scale⌋ : ℝ))) ∧
    ∀ zoom scale x0 y0 : ℝ,
      OrbitEllipse.projectPoint zoom scale x0 y0 (OrbitEllipse.mkVertex 0 0) =
        (x0, y0) := by
  constructor
  · intro zoom scale x0 y0 x y
    constructor <;>
      simp [OrbitEllipse.projectPoint, OrbitEllipse.mkVertex,
        Planet.screenOffset, pyFloorDiv, mul_comm]
  · intro zoom scale x0 y0
    simp [OrbitEllipse.projectPoint, OrbitEllipse.mkVertex, pyFloorDiv]

/-- Claim C4 (counterexample): `jumpTo` does not re-derive `targetTime` and
`timeStep`.  Concretely, jumping the clock state with `targetTime = 5`,
`timeStep = 7`, `speedIndex = 16` to instant `100` leaves
`targetTime = 5` and `timeStep = 7`, while running `updateTimeStep` (the
re-derivation the claim asserts) on the jumped state would produce
`targetTime = 86500` and `timeStep = 2880` (with `SPEED[16]` worth
`86400` seconds at 30 fps). -/
theorem jumpTo_does_not_retarget :
    (SolarSystem.jumpTo ⟨0, 5, 7, 16, false⟩ 100).targetTime = 5 ∧
    (SolarSystem.updateTimeStep (fun _ => 86400) 30
        (SolarSystem.jumpTo ⟨0, 5, 7, 16, false⟩ 100)).targetTime = 86500 ∧
    (5 : ℝ) ≠ 86500 := by
  refine ⟨rfl, ?_, by norm_num⟩
  norm_num [SolarSystem.updateTimeStep, SolarSystem.jumpTo]

/-- Claim C4 (amended): for every instant `i`, the date-jump sets
`currentTime` to exactly `i` and leaves `rateIndex` unchanged, but it does
not re-derive `targetTime` and `timeStep` (nor set `targetTimeReached`);
those keep their previous values until a later `update()` retargets. -/
theorem jumpTo_sets_time_only (s : SolarSystem.Clock) (i : ℝ) :
    (SolarSystem.jumpTo s i).time = i ∧
    (SolarSystem.jumpTo s i).speedIndex = s.speedIndex ∧
    (SolarSystem.jumpTo s i).targetTime = s.targetTime ∧
    (SolarSystem.jumpTo s i).timeStep = s.timeStep ∧
    (SolarSystem.jumpTo s i).targetTimeReached = s.targetTimeReached := by
  exact ⟨rfl, rfl, rfl, rfl, rfl⟩

namespace KeplerOrbit

theorem getEccentricAnomalyAux_zero (k : KeplerOrbit) (M prevE : ℝ)
    (iterations : ℕ) :
    getEccentricAnomalyAux k M 0 prevE iterations = none := rfl

open Classical in
theorem getEccentricAnomalyAux_succ (k : KeplerOrbit) (M prevE : ℝ)
    (fuel iterations : ℕ) :
    getEccentricAnomalyAux k M (fuel + 1) prevE iterations =
      if isclose 1e-9 accuracy (M + k.e * Real.sin prevE) prevE ∨
          iterations > maxIterations then
        some (M + k.e * Real.sin prevE)
      else getEccentricAnomalyAux k M fuel (M + k.e * Real.sin prevE)
        iterations := rfl

/-- Inversion of a successful `updatePosition` into its intermediate
values. -/
theorem updatePosition_eq_some {k : KeplerOrbit} {time : ℝ} {fuel : ℕ}
    {k' : KeplerOrbit} (h : updatePosition k time fuel = some k') :
    ∃ m E f v, getMeanAnomaly k (time - k.epoch) = some m ∧
      getEccentricAnomaly k (m + k.M) fuel = some E ∧
      getTrueAnomaly k E = some f ∧
      getSpeed k (getDistance k E) = some v ∧
      k' = ⟨k.e, k.a, k.T, k.O, k.o, k.M, k.my, k.epoch,
        f, getDistance k E, v⟩ := by
  simp only [updatePosition, Option.bind_eq_some, Option.map_eq_some'] at h
  obtain ⟨m, hm, E, hE, f, hf, v, hv, hk⟩ := h
  exact ⟨m, E, f, v, hm, hE, hf, hv, hk.symm⟩

end KeplerOrbit

open KeplerOrbit in
/-- Claim C10: every call to `updatePosition` writes only the derived members
`f`, `r`, `v`; the orbital element members `e, a, T, O, o, M, my` and the
`epoch` are unchanged by every such call. -/
theorem updatePosition_writes_only_f_r_v (k : KeplerOrbit) (time : ℝ)
    (fuel : ℕ) (k' : KeplerOrbit) (h : updatePosition k time fuel = some k') :
    k'.e = k.e ∧ k'.a = k.a ∧ k'.T = k.T ∧ k'.O = k.O ∧ k'.o = k.o ∧
      k'.M = k.M ∧ k'.my = k.my ∧ k'.epoch = k.epoch := by
  obtain ⟨m, E, f, v, -, -, -, -, hk⟩ := updatePosition_eq_some h
  subst hk
  exact ⟨rfl, rfl, rfl, rfl, rfl, rfl, rfl, rfl⟩

namespace KeplerOrbit

/-- A concrete circular orbit (`e = 0`, `a = 1`, `T = 1`, `my = 1`,
epoch `0`), used as evaluation input. -/
def circOrbit : KeplerOrbit := ⟨0, 1, 1, 0, 0, 0, 1, 0, 0, 0, 0⟩

/-- The state `updatePosition` produces for `circOrbit`: `f = 0`, `r = 1`,
`v = 1`. -/
def circState : KeplerOrbit := ⟨0, 1, 1, 0, 0, 0, 1, 0, 0, 1, 1⟩

theorem getEcc_circ_zero : getEccentricAnomaly circOrbit 0 1 = some 0 := by
  show getEccentricAnomalyAux circOrbit 0 (0 + 1) 0 0 = some 0
  rw [getEccentricAnomalyAux_succ, if_pos]
  · norm_num [circOrbit]
  · left
    norm_num [isclose, circOrbit, accuracy]

theorem getEcc_circ_two_pi :
    getEccentricAnomaly circOrbit (2 * Real.pi) 1 = some (2 * Real.pi) := by
  show getEccentricAnomalyAux circOrbit (2 * Real.pi) (0 + 1)
    (2 * Real.pi) 0 = some (2 * Real.pi)
  rw [getEccentricAnomalyAux_succ, if_pos]
  · norm_num [circOrbit]
  · left
    norm_num [isclose, circOrbit, accuracy]

theorem updatePosition_circ_epoch :
    updatePosition circOrbit 0 1 = some circState := by
  have hE := getEcc_circ_zero
  simp only [updatePosition, getMeanAnomaly, getTrueAnomaly, getDistance,
    getSpeed, pyDiv, pySqrt, circOrbit] at hE ⊢
  norm_num [hE, circState, circOrbit, Real.sqrt_one]

theorem updatePosition_circ_period :
    updatePosition circOrbit 1 1 = some circState := by
  have hE := getEcc_circ_two_pi
  simp only [updatePosition, getMeanAnomaly, getTrueAnomaly, getDistance,
    getSpeed, pyDiv, pySqrt, circOrbit] at hE ⊢
  norm_num [hE, circState, circOrbit, Real.sqrt_one, Real.tan_pi]

end KeplerOrbit

open KeplerOrbit in
/-- Witness for claim C10 at the concrete circular orbit. -/
theorem updatePosition_writes_only_f_r_v_witness :
    updatePosition circOrbit 0 1 = some circState ∧
      (circState.e = circOrbit.e ∧ circState.a = circOrbit.a ∧
        circState.T = circOrbit.T ∧ circState.O = circOrbit.O ∧
        circState.o = circOrbit.o ∧ circState.M = circOrbit.M ∧
        circState.my = circOrbit.my ∧ circState.epoch = circOrbit.epoch) :=
  ⟨updatePosition_circ_epoch,
    updatePosition_writes_only_f_r_v circOrbit 0 1 circState
      updatePosition_circ_epoch⟩

open KeplerOrbit in
/-- Claim C7: for every valid elements value (`0 ≤ e < 1`, `a > 0`) and every
time, the distance the solver writes satisfies
`a * (1 - e) ≤ r ≤ a * (1 + e)`. -/
theorem solver_distance_in_apsis_range (k : KeplerOrbit) (time : ℝ)
    (fuel : ℕ) (k' : KeplerOrbit) (he0 : 0 ≤ k.e) (he1 : k.e < 1)
    (ha : 0 < k.a) (h : updatePosition k time fuel = some k') :
    k.a * (1 - k.e) ≤ k'.r ∧ k'.r ≤ k.a * (1 + k.e) := by
  obtain ⟨m, E, f, v, -, -, -, -, hk⟩ := updatePosition_eq_some h
  subst hk
  have h1 : -1 ≤ Real.cos E := Real.neg_one_le_cos E
  have h2 : Real.cos E ≤ 1 := Real.cos_le_one E
  have h3 : 0 ≤ k.a * k.e * (1 - Real.cos E) :=
    mul_nonneg (mul_nonneg ha.le he0) (by linarith)
  have h4 : 0 ≤ k.a * k.e * (1 + Real.cos E) :=
    mul_nonneg (mul_nonneg ha.le he0) (by linarith)
  constructor <;> simp only [getDistance] <;> nlinarith

open KeplerOrbit in
/-- Witness for claim C7 at the concrete circular orbit. -/
theorem solver_distance_in_apsis_range_witness :
    ((0 : ℝ) ≤ circOrbit.e ∧ circOrbit.e < 1 ∧ (0 : ℝ) < circOrbit.a ∧
      updatePosition circOrbit 0 1 = some circState) ∧
      circOrbit.a * (1 - circOrbit.e) ≤ circState.r ∧
      circState.r ≤ circOrbit.a * (1 + circOrbit.e) :=
  ⟨⟨by norm_num [circOrbit], by norm_num [circOrbit], by norm_num [circOrbit],
      updatePosition_circ_epoch⟩,
    solver_distance_in_apsis_range circOrbit 0 1 circState
      (by norm_num [circOrbit]) (by norm_num [circOrbit])
      (by norm_num [circOrbit]) updatePosition_circ_epoch⟩

namespace KeplerOrbit

/-- With mean anomaly `M`, the first loop pass computes
`E = M + e * sin M`; when that already satisfies `isclose`, the loop returns
it at once.  For `M = 0` the first pass returns `0` for every eccentricity,
since `sin 0 = 0`. -/
theorem getEcc_M_zero (k : KeplerOrbit) (fuel : ℕ) (h : fuel ≠ 0) :
    getEccentricAnomaly k 0 fuel = some 0 := by
  obtain ⟨n, rfl⟩ := Nat.exists_eq_succ_of_ne_zero h
  show getEccentricAnomalyAux k 0 (n + 1) 0 0 = some 0
  rw [getEccentricAnomalyAux_succ, if_pos]
  · norm_num
  · left
    norm_num [isclose, accuracy]

/-- For `e = 0` the loop returns its seed `M` on the first pass: the first
iterate is `M + 0 * sin M = M`, which is `isclose` to the seed `M`. -/
theorem getEcc_e_zero (k : KeplerOrbit) (M : ℝ) (fuel : ℕ) (he : k.e = 0)
    (h : fuel ≠ 0) : getEccentricAnomaly k M fuel = some M := by
  obtain ⟨n, rfl⟩ := Nat.exists_eq_succ_of_ne_zero h
  show getEccentricAnomalyAux k M (n + 1) M 0 = some M
  rw [getEccentricAnomalyAux_succ, if_pos]
  · rw [he]
    norm_num
  · left
    rw [he]
    simp only [zero_mul, add_zero, sub_self, abs_zero]
    exact le_max_of_le_right (by norm_num [accuracy])

theorem init_T_zero_fails : init 0 1 0 0 0 0 1 0 1 = none := by
  simp [init, updatePosition, getMeanAnomaly, pyDiv]

theorem init_e_one_fails : init 1 1 1 0 0 0 1 0 1 = none := by
  have hE : getEccentricAnomaly ⟨1, 1, 1, 0, 0, 0, 1, 0, 0, 0, 0⟩ 0 1 =
      some 0 := getEcc_M_zero _ 1 one_ne_zero
  simp only [init, updatePosition, getMeanAnomaly, getTrueAnomaly, pyDiv]
  norm_num [hE]

theorem init_e_two_fails : init 2 1 1 0 0 0 1 0 1 = none := by
  have hE : getEccentricAnomaly ⟨2, 1, 1, 0, 0, 0, 1, 0, 0, 0, 0⟩ 0 1 =
      some 0 := getEcc_M_zero _ 1 one_ne_zero
  simp only [init, updatePosition, getMeanAnomaly, getTrueAnomaly, pyDiv,
    pySqrt]
  norm_num [hE]

theorem init_mu_zero_eval :
    init 0 1 1 0 0 0 0 0 1 = some ⟨0, 1, 1, 0, 0, 0, 0, 0, 0, 1, 0⟩ := by
  have hE : getEccentricAnomaly ⟨0, 1, 1, 0, 0, 0, 0, 0, 0, 0, 0⟩ 0 1 =
      some 0 := getEcc_M_zero _ 1 one_ne_zero
  simp only [init, updatePosition, getMeanAnomaly, getTrueAnomaly,
    getDistance, getSpeed, pyDiv, pySqrt]
  norm_num [hE, Real.sqrt_one]

theorem init_neg_a_mu_zero_eval :
    init 0 (-1) 1 0 0 0 0 0 1 =
      some ⟨0, -1, 1, 0, 0, 0, 0, 0, 0, -1, 0⟩ := by
  have hE : getEccentricAnomaly ⟨0, -1, 1, 0, 0, 0, 0, 0, 0, 0, 0⟩ 0 1 =
      some 0 := getEcc_M_zero _ 1 one_ne_zero
  simp only [init, updatePosition, getMeanAnomaly, getTrueAnomaly,
    getDistance, getSpeed, pyDiv, pySqrt]
  norm_num [hE, Real.sqrt_one]

end KeplerOrbit

open KeplerOrbit in
/-- Claim C3 (counterexample): `my = 0` violates the domain `μ > 0`, yet
`KeplerOrbit.__init__(e=0, a=1, T=1, O=0, o=0, M=0, my=0)` raises nothing and
produces a usable object (with `f = 0`, `r = 1`, `v = 0`), so construction is
not rejected for every invalid argument combination. -/
theorem init_accepts_mu_zero :
    init 0 1 1 0 0 0 0 0 1 = some ⟨0, 1, 1, 0, 0, 0, 0, 0, 0, 1, 0⟩ ∧
      ¬ (0 : ℝ) > 0 :=
  ⟨init_mu_zero_eval, by norm_num⟩

open KeplerOrbit in
/-- Claim C3 (amended): the constructor performs no domain validation.  It
fails only when the initial `updatePosition(epoch)` raises — e.g. `T = 0`
(zero division in the mean anomaly), `e = 1` (zero division in the true
anomaly), `e = 2 > 1` (square root of a negative) — while other invalid
combinations are accepted and yield a usable object, e.g. `my = 0`, or
`a = -1` together with `my = 0`. -/
theorem init_validation_is_incidental :
    init 0 1 0 0 0 0 1 0 1 = none ∧
    init 1 1 1 0 0 0 1 0 1 = none ∧
    init 2 1 1 0 0 0 1 0 1 = none ∧
    init 0 1 1 0 0 0 0 0 1 = some ⟨0, 1, 1, 0, 0, 0, 0, 0, 0, 1, 0⟩ ∧
    init 0 (-1) 1 0 0 0 0 0 1 =
      some ⟨0, -1, 1, 0, 0, 0, 0, 0, 0, -1, 0⟩ :=
  ⟨init_T_zero_fails, init_e_one_fails, init_e_two_fails,
    init_mu_zero_eval, init_neg_a_mu_zero_eval⟩

namespace KeplerOrbit

theorem getMean_circ_period :
    getMeanAnomaly circOrbit 1 = some (2 * Real.pi) := by
  simp only [getMeanAnomaly, pyDiv, circOrbit]
  norm_num

end KeplerOrbit

open KeplerOrbit in
/-- Claim C5 (counterexample): for the circular elements `circOrbit`
(`e = 0`, `T = 1`, `M0 = 0`, epoch `0`) at time `1` (one full period), the
mean anomaly is `2π` and the solver indeed returns the eccentric anomaly
`E = 2π = M`, but the computed true anomaly is `f = 0 ≠ 2π`, so the claimed
identity `E = M = f` fails. -/
theorem circular_f_differs_from_mean_anomaly :
    getMeanAnomaly circOrbit 1 = some (2 * Real.pi) ∧
    getEccentricAnomaly circOrbit (2 * Real.pi) 1 = some (2 * Real.pi) ∧
    updatePosition circOrbit 1 1 = some circState ∧
    circState.f ≠ 2 * Real.pi := by
  refine ⟨getMean_circ_period, getEcc_circ_two_pi,
    updatePosition_circ_period, ?_⟩
  have h := Real.pi_pos
  show (0 : ℝ) ≠ 2 * Real.pi
  exact ne_of_lt (by linarith)

open KeplerOrbit in
/-- Claim C5 (amended): for elements with `e = 0` and `a > 0`, at every time
at which the solve succeeds the eccentric anomaly equals the mean anomaly
(`E = M`), the computed distance is the constant `a` and the computed speed
is the constant `sqrt(my / a)`; the computed true anomaly `f` equals `M`
whenever `M` lies in the principal branch `(-π, π)` (in general `f` is `M`
reduced by the `atan∘tan` composition, as the counterexample at `M = 2π`
shows). -/
theorem circular_orbit_solution (k : KeplerOrbit) (time : ℝ) (fuel : ℕ)
    (k' : KeplerOrbit) (he : k.e = 0) (ha : 0 < k.a)
    (h : updatePosition k time fuel = some k') :
    ∃ m, getMeanAnomaly k (time - k.epoch) = some m ∧
      getEccentricAnomaly k (m + k.M) fuel = some (m + k.M) ∧
      k'.r = k.a ∧ k'.v = Real.sqrt (k.my / k.a) ∧
      (-Real.pi < m + k.M → m + k.M < Real.pi → k'.f = m + k.M) := by
  obtain ⟨m, E, f, v, hm, hE, hf, hv, hk⟩ := updatePosition_eq_some h
  have hfuel : fuel ≠ 0 := by
    rintro rfl
    simp [getEccentricAnomaly, getEccentricAnomalyAux_zero] at hE
  have hE' : getEccentricAnomaly k (m + k.M) fuel = some (m + k.M) :=
    getEcc_e_zero k (m + k.M) fuel he hfuel
  have hEM : E = m + k.M := by
    have := hE'.symm.trans hE
    exact (Option.some_injective ℝ this).symm
  subst hEM
  have ha' : k.a ≠ 0 := ne_of_gt ha
  have hr : getDistance k (m + k.M) = k.a := by
    simp [getDistance, he]
  refine ⟨m, hm, hE', ?_, ?_, ?_⟩
  · rw [hk, hr]
  · rw [hk]
    show v = _
    rw [hr] at hv
    simp only [getSpeed, pyDiv, pySqrt, if_neg ha', Option.some_bind] at hv
    have h2a : (2 : ℝ) / k.a - 1 / k.a = 1 / k.a := by ring
    rw [h2a] at hv
    by_cases hneg : k.my * (1 / k.a) < 0
    · rw [if_pos hneg] at hv
      simp at hv
    · rw [if_neg hneg] at hv
      have := Option.some_injective ℝ hv
      rw [← this]
      congr 1
      field_simp
  · intro h1 h2
    rw [hk]
    show f = _
    simp only [getTrueAnomaly, pyDiv, pySqrt, he] at hf
    norm_num at hf
    rw [← hf, Real.arctan_tan (by linarith) (by linarith)]
    ring

open KeplerOrbit in
/-- Witness for the amended claim C5 at the concrete circular orbit and its
epoch, where the mean anomaly is `0 ∈ (-π, π)`. -/
theorem circular_orbit_solution_witness :
    (circOrbit.e = 0 ∧ (0 : ℝ) < circOrbit.a ∧
      updatePosition circOrbit 0 1 = some circState) ∧
    ∃ m, getMeanAnomaly circOrbit (0 - circOrbit.epoch) = some m ∧
      getEccentricAnomaly circOrbit (m + circOrbit.M) 1 =
        some (m + circOrbit.M) ∧
      circState.r = circOrbit.a ∧
      circState.v = Real.sqrt (circOrbit.my / circOrbit.a) ∧
      (-Real.pi < m + circOrbit.M → m + circOrbit.M < Real.pi →
        circState.f = m + circOrbit.M) :=
  ⟨⟨rfl, by norm_num [circOrbit], updatePosition_circ_epoch⟩,
    circular_orbit_solution circOrbit 0 1 circState rfl
      (by norm_num [circOrbit]) updatePosition_circ_epoch⟩

namespace SolarSystem

/-- One `update()` tick always advances the simulated time by exactly the
current `timeStep`, whether or not it retargets afterwards. -/
theorem update_time (spd : ℕ → ℝ) (fps : ℝ) (s : Clock) :
    (update spd fps s).time = s.time + s.timeStep := by
  simp only [update, updateTimeStep]
  split <;> rfl

/-- Invariant for claim C2: starting from a freshly retargeted state at a
non-freeze rate, the first `fps - 1` ticks never satisfy the target-reached
test, so `targetTime`, `timeStep` and `speedIndex` stay fixed while the time
advances in steps of `spd R / fps`. -/
theorem update_iterate_fresh (spd : ℕ → ℝ) (fps : ℕ) (s0 : Clock)
    (hfps : 0 < fps)
    (h1 : s0.targetTime = s0.time + spd s0.speedIndex)
    (h2 : s0.timeStep = spd s0.speedIndex / fps)
    (h3 : s0.targetTimeReached = false)
    (hdir : (freezeIndex < s0.speedIndex ∧ 0 < spd s0.speedIndex) ∨
      (s0.speedIndex < freezeIndex ∧ spd s0.speedIndex < 0)) :
    ∀ j, j < fps → (update spd (fps : ℝ))^[j] s0 =
      ⟨s0.time + j * (spd s0.speedIndex / fps), s0.targetTime, s0.timeStep,
        s0.speedIndex, false⟩ := by
  obtain ⟨t0, tt0, ts0, R, r0⟩ := s0
  simp only at h1 h2 h3 hdir
  subst h3
  intro j
  induction j with
  | zero =>
    intro _
    simp only [Function.iterate_zero, id_eq, Nat.cast_zero, zero_mul,
      add_zero]
  | succ n ih =>
    intro hn
    have hn' : n < fps := Nat.lt_of_succ_lt hn
    rw [Function.iterate_succ_apply', ih hn']
    have hfpsR : (0 : ℝ) < (fps : ℝ) := by exact_mod_cast hfps
    have hlt : ((n : ℝ) + 1) < (fps : ℝ) := by exact_mod_cast hn
    simp only [update, updateTimeStep]
    have key : (fps : ℝ) * (spd R / (fps : ℝ)) = spd R := by
      field_simp
    have expand : ((n : ℝ) + 1) * (spd R / (fps : ℝ)) =
        (n : ℝ) * (spd R / (fps : ℝ)) + spd R / (fps : ℝ) := by ring
    rw [if_neg]
    · rw [h2]
      congr 1
      push_cast
      ring
    · simp only [Bool.false_eq_true, false_or, not_or, not_and, not_le]
      rcases hdir with ⟨hR, hD⟩ | ⟨hR, hD⟩
      · constructor
        · intro _
          rw [h2, h1]
          have hstep : ((n : ℝ) + 1) * (spd R / (fps : ℝ)) <
              (fps : ℝ) * (spd R / (fps : ℝ)) :=
            mul_lt_mul_of_pos_right hlt (div_pos hD hfpsR)
          linarith
        · intro habs
          exact absurd hR (by omega)
      · constructor
        · intro habs
          exact absurd hR (by omega)
        · intro _
          rw [h2, h1]
          have hDf : spd R / (fps : ℝ) < 0 := div_neg_of_neg_of_pos hD hfpsR
          have hstep : (fps : ℝ) * (spd R / (fps : ℝ)) <
              ((n : ℝ) + 1) * (spd R / (fps : ℝ)) :=
            mul_lt_mul_of_neg_right hlt hDf
          linarith

end SolarSystem

open SolarSystem in
/-- Claim C2: starting from any simulated time with a non-freeze rate index
selected and the target/timestep freshly derived (`targetTime = time + D`,
`timeStep = D / frameRate`, `targetTimeReached = false`, where `D` is the
duration of the selected `SPEED` entry), exactly `frameRate` consecutive
ticks — with no rate change, pause or jump in between — advance the
simulated time by exactly `D`. -/
theorem clock_fps_ticks_advance_one_ladder_unit (spd : ℕ → ℝ) (fps : ℕ)
    (s0 : Clock) (hfps : 0 < fps)
    (h1 : s0.targetTime = s0.time + spd s0.speedIndex)
    (h2 : s0.timeStep = spd s0.speedIndex / fps)
    (h3 : s0.targetTimeReached = false)
    (hdir : (freezeIndex < s0.speedIndex ∧ 0 < spd s0.speedIndex) ∨
      (s0.speedIndex < freezeIndex ∧ spd s0.speedIndex < 0)) :
    ((update spd (fps : ℝ))^[fps] s0).time = s0.time + spd s0.speedIndex := by
  obtain ⟨n, rfl⟩ : ∃ n, fps = n + 1 :=
    ⟨fps - 1, (Nat.succ_pred_eq_of_pos hfps).symm⟩
  rw [Function.iterate_succ_apply', update_time,
    update_iterate_fresh spd (n + 1) s0 hfps h1 h2 h3 hdir n
      (Nat.lt_succ_self n)]
  show s0.time + (n : ℝ) * (spd s0.speedIndex / ((n : ℕ) + 1 : ℕ)) +
      s0.timeStep = _
  rw [h2]
  have hne : ((n : ℝ) + 1) ≠ 0 := by positivity
  push_cast
  field_simp
  ring

open SolarSystem in
/-- Witness for claim C2: rate index 16 ("1 d/s", 86400 seconds), 30 fps,
starting at time 0 freshly targeted at 86400 with step 2880 = 86400/30;
after 30 ticks the time is exactly 0 + 86400. -/
theorem clock_fps_ticks_advance_one_ladder_unit_witness :
    ((0 : ℕ) < 30 ∧
      (⟨0, 86400, 2880, 16, false⟩ : Clock).targetTime =
        (⟨0, 86400, 2880, 16, false⟩ : Clock).time + 86400 ∧
      (⟨0, 86400, 2880, 16, false⟩ : Clock).timeStep =
        (86400 : ℝ) / (30 : ℕ) ∧
      (freezeIndex < 16 ∧ (0 : ℝ) < 86400)) ∧
    ((update (fun _ => 86400) ((30 : ℕ) : ℝ))^[30]
        ⟨0, 86400, 2880, 16, false⟩).time = 0 + 86400 :=
  ⟨⟨by norm_num, by norm_num, by norm_num, by norm_num [freezeIndex]⟩,
    clock_fps_ticks_advance_one_ladder_unit (fun _ => 86400) 30
      ⟨0, 86400, 2880, 16, false⟩ (by norm_num) (by norm_num)
      (by norm_num) rfl
      (Or.inl ⟨by norm_num [freezeIndex], by norm_num⟩)⟩

namespace KeplerOrbit

/-- The body of one solver loop pass: the next iterate `M + e * sin prevE`. -/
noncomputable def eccStep (k : KeplerOrbit) (M : ℝ) (p : ℝ) : ℝ :=
  M + k.e * Real.sin p

open Classical in
theorem getEccentricAnomalyAux_succ_step (k : KeplerOrbit) (M prevE : ℝ)
    (fuel iterations : ℕ) :
    getEccentricAnomalyAux k M (fuel + 1) prevE iterations =
      if isclose 1e-9 accuracy (eccStep k M prevE) prevE ∨
          iterations > maxIterations then
        some (eccStep k M prevE)
      else getEccentricAnomalyAux k M fuel (eccStep k M prevE)
        iterations := rfl

/-- Once the loop has returned within some number of passes, giving it one
more pass of fuel cannot change the result. -/
theorem getEccentricAnomalyAux_fuel_mono (k : KeplerOrbit) (M : ℝ) :
    ∀ fuel prevE iterations E,
      getEccentricAnomalyAux k M fuel prevE iterations = some E →
      getEccentricAnomalyAux k M (fuel + 1) prevE iterations = some E := by
  intro fuel
  induction fuel with
  | zero =>
    intro prevE iterations E h
    rw [getEccentricAnomalyAux_zero] at h
    exact absurd h (by simp)
  | succ n ih =>
    intro prevE iterations E h
    rw [getEccentricAnomalyAux_succ_step] at h
    rw [getEccentricAnomalyAux_succ_step]
    by_cases hg : isclose 1e-9 accuracy (eccStep k M prevE) prevE ∨
        iterations > maxIterations
    · rwa [if_pos hg] at h ⊢
    · rw [if_neg hg] at h ⊢
      exact ih _ _ _ h

/-- If the loop has not returned within `n` passes but returns within
`n + 1`, the returned value is the `(n+1)`-st iterate of the loop body
applied to the seed. -/
theorem getEccentricAnomalyAux_first_return (k : KeplerOrbit) (M : ℝ) :
    ∀ n prevE E, getEccentricAnomalyAux k M n prevE 0 = none →
      getEccentricAnomalyAux k M (n + 1) prevE 0 = some E →
      E = (eccStep k M)^[n + 1] prevE := by
  intro n
  induction n with
  | zero =>
    intro prevE E h0 h1
    rw [getEccentricAnomalyAux_succ_step] at h1
    by_cases hg : isclose 1e-9 accuracy (eccStep k M prevE) prevE ∨
        (0 : ℕ) > maxIterations
    · rw [if_pos hg] at h1
      simpa using (Option.some_injective ℝ h1).symm
    · rw [if_neg hg, getEccentricAnomalyAux_zero] at h1
      exact absurd h1 (by simp)
  | succ n ih =>
    intro prevE E h0 h1
    rw [getEccentricAnomalyAux_succ_step] at h0
    rw [getEccentricAnomalyAux_succ_step] at h1
    by_cases hg : isclose 1e-9 accuracy (eccStep k M prevE) prevE ∨
        (0 : ℕ) > maxIterations
    · rw [if_pos hg] at h0
      exact absurd h0 (by simp)
    · rw [if_neg hg] at h0 h1
      rw [ih _ E h0 h1, ← Function.iterate_succ_apply]

/-- Shifting the mean anomaly and the seed by one turn shifts every iterate
of the loop body by one turn, since `sin` has period `2π`. -/
theorem eccStep_iterate_shift (k : KeplerOrbit) (M p : ℝ) :
    ∀ n, (eccStep k (M + 2 * Real.pi))^[n] (p + 2 * Real.pi) =
      (eccStep k M)^[n] p + 2 * Real.pi := by
  intro n
  induction n with
  | zero => simp
  | succ n ih =>
    rw [Function.iterate_succ_apply', Function.iterate_succ_apply', ih]
    show M + 2 * Real.pi + k.e * Real.sin ((eccStep k M)^[n] p + 2 * Real.pi)
      = _
    rw [Real.sin_add_two_pi]
    show _ = M + k.e * Real.sin ((eccStep k M)^[n] p) + 2 * Real.pi
    ring

/-- The true anomaly formula is invariant under a full turn of the eccentric
anomaly, since `tan` has period `π`. -/
theorem getTrueAnomaly_add_two_pi (k : KeplerOrbit) (E : ℝ) :
    getTrueAnomaly k (E + 2 * Real.pi) = getTrueAnomaly k E := by
  unfold getTrueAnomaly
  congr 1
  funext q
  congr 1
  funext s
  rw [show (E + 2 * Real.pi) / 2 = E / 2 + Real.pi by ring, Real.tan_add_pi]

/-- The distance formula is invariant under a full turn of the eccentric
anomaly, since `cos` has period `2π`. -/
theorem getDistance_add_two_pi (k : KeplerOrbit) (E : ℝ) :
    getDistance k (E + 2 * Real.pi) = getDistance k E := by
  unfold getDistance
  rw [Real.cos_add_two_pi]

end KeplerOrbit

namespace KeplerOrbit

theorem updatePosition_circ_fuel_zero (time : ℝ) :
    updatePosition circOrbit time 0 = none := by
  simp [updatePosition, getMeanAnomaly, pyDiv, circOrbit, getEccentricAnomaly,
    getEccentricAnomalyAux_zero]

end KeplerOrbit

open KeplerOrbit in
/-- Claim C8: for every elements value with `T ≠ 0`, if solving at the epoch
and solving at epoch + T both return, each stopping at the same loop pass
(not returning with one pass less of fuel, returning with `m + 1`), then the
two results have exactly equal true anomaly `f`, distance `r` and speed `v`:
the second run's mean anomaly and iterates are those of the first shifted by
`2π`, and the `f`, `r`, `v` formulas are invariant under that shift. -/
theorem solve_is_periodic (k : KeplerOrbit) (m : ℕ) (k1 k2 : KeplerOrbit)
    (hT : k.T ≠ 0)
    (h1 : updatePosition k k.epoch m = none)
    (h2 : updatePosition k k.epoch (m + 1) = some k1)
    (h3 : updatePosition k (k.epoch + k.T) m = none)
    (h4 : updatePosition k (k.epoch + k.T) (m + 1) = some k2) :
    k1.f = k2.f ∧ k1.r = k2.r ∧ k1.v = k2.v := by
  have hm1 : getMeanAnomaly k (k.epoch - k.epoch) = some 0 := by
    simp [getMeanAnomaly, pyDiv, hT]
  have hm2 : getMeanAnomaly k (k.epoch + k.T - k.epoch) = some (2 * Real.pi)
      := by
    rw [show k.epoch + k.T - k.epoch = k.T by ring]
    simp only [getMeanAnomaly, pyDiv, if_neg hT]
    rw [mul_div_assoc, div_self hT, mul_one]
  obtain ⟨m1, E1, f1, v1, hm1', hE1, hf1, hv1, hk1⟩ := updatePosition_eq_some h2
  obtain ⟨m2, E2, f2, v2, hm2', hE2, hf2, hv2, hk2⟩ := updatePosition_eq_some h4
  have hm1eq : m1 = 0 := Option.some_injective ℝ (hm1'.symm.trans hm1)
  have hm2eq : m2 = 2 * Real.pi := Option.some_injective ℝ (hm2'.symm.trans hm2)
  subst hm1eq hm2eq
  -- the eccentric-anomaly run at fuel m must have been still running,
  -- otherwise updatePosition at fuel m would already have returned some
  have hEn1 : getEccentricAnomaly k (0 + k.M) m = none := by
    rcases hget : getEccentricAnomaly k (0 + k.M) m with _ | E
    · rfl
    · have hmono : getEccentricAnomaly k (0 + k.M) (m + 1) = some E :=
        getEccentricAnomalyAux_fuel_mono k (0 + k.M) m (0 + k.M) 0 E hget
      have hEeq : E = E1 := Option.some_injective ℝ (hmono.symm.trans hE1)
      subst hEeq
      have : updatePosition k k.epoch m = some k1 := by
        simp only [updatePosition, hm1, Option.some_bind, hget, hf1,
          hv1, Option.map_some', hk1]
      exact absurd (h1.symm.trans this) (by simp)
  have hEn2 : getEccentricAnomaly k (2 * Real.pi + k.M) m = none := by
    rcases hget : getEccentricAnomaly k (2 * Real.pi + k.M) m with _ | E
    · rfl
    · have hmono : getEccentricAnomaly k (2 * Real.pi + k.M) (m + 1) = some E
          := getEccentricAnomalyAux_fuel_mono k (2 * Real.pi + k.M) m
            (2 * Real.pi + k.M) 0 E hget
      have hEeq : E = E2 := Option.some_injective ℝ (hmono.symm.trans hE2)
      subst hEeq
      have : updatePosition k (k.epoch + k.T) m = some k2 := by
        simp only [updatePosition, hm2, Option.some_bind, hget, hf2,
          hv2, Option.map_some', hk2]
      exact absurd (h3.symm.trans this) (by simp)
  -- both runs return their (m+1)-st iterate, and the second sequence is the
  -- first shifted by 2π
  have hval1 : E1 = (eccStep k (0 + k.M))^[m + 1] (0 + k.M) :=
    getEccentricAnomalyAux_first_return k (0 + k.M) m (0 + k.M) E1 hEn1 hE1
  have hval2 : E2 = (eccStep k (2 * Real.pi + k.M))^[m + 1]
      (2 * Real.pi + k.M) :=
    getEccentricAnomalyAux_first_return k (2 * Real.pi + k.M) m
      (2 * Real.pi + k.M) E2 hEn2 hE2
  have hshiftM : (2 : ℝ) * Real.pi + k.M = (0 + k.M) + 2 * Real.pi := by ring
  have hE21 : E2 = E1 + 2 * Real.pi := by
    rw [hval2, hval1, hshiftM, eccStep_iterate_shift]
  -- the three derived quantities agree
  have hreq : getDistance k E2 = getDistance k E1 := by
    rw [hE21, getDistance_add_two_pi]
  have hfeq : f2 = f1 := by
    rw [hE21, getTrueAnomaly_add_two_pi] at hf2
    exact Option.some_injective ℝ (hf2.symm.trans hf1)
  have hveq : v2 = v1 := by
    rw [hreq] at hv2
    exact Option.some_injective ℝ (hv2.symm.trans hv1)
  rw [hk1, hk2]
  exact ⟨hfeq.symm, hreq.symm, hveq.symm⟩

open KeplerOrbit in
/-- Witness for claim C8 at the concrete circular orbit, whose solver stops
at the first pass both at the epoch and one period later, yielding the same
`f`, `r`, `v`. -/
theorem solve_is_periodic_witness :
    (circOrbit.T ≠ 0 ∧
      updatePosition circOrbit circOrbit.epoch 0 = none ∧
      updatePosition circOrbit circOrbit.epoch 1 = some circState ∧
      updatePosition circOrbit (circOrbit.epoch + circOrbit.T) 0 = none ∧
      updatePosition circOrbit (circOrbit.epoch + circOrbit.T) 1 =
        some circState) ∧
    circState.f = circState.f ∧ circState.r = circState.r ∧
      circState.v = circState.v :=
  ⟨⟨by norm_num [circOrbit], updatePosition_circ_fuel_zero _,
      updatePosition_circ_epoch, updatePosition_circ_fuel_zero _,
      by rw [show circOrbit.epoch + circOrbit.T = 1 by norm_num [circOrbit]]
         exact updatePosition_circ_period⟩,
    solve_is_periodic circOrbit 0 circState circState
      (by norm_num [circOrbit]) (updatePosition_circ_fuel_zero _)
      updatePosition_circ_epoch (updatePosition_circ_fuel_zero _)
      (by rw [show circOrbit.epoch + circOrbit.T = 1 by norm_num [circOrbit]]
          exact updatePosition_circ_period)⟩

/-- The sine function is 1-Lipschitz. -/
theorem abs_sin_sub_sin_le (a b : ℝ) :
    |Real.sin a - Real.sin b| ≤ |a - b| := by
  rw [Real.sin_sub_sin]
  have h1 : |Real.sin ((a - b) / 2)| ≤ |(a - b) / 2| := Real.abs_sin_le_abs
  have h2 : |Real.cos ((a + b) / 2)| ≤ 1 := Real.abs_cos_le_one _
  calc |2 * Real.sin ((a - b) / 2) * Real.cos ((a + b) / 2)|
      = 2 * |Real.sin ((a - b) / 2)| * |Real.cos ((a + b) / 2)| := by
        rw [abs_mul, abs_mul, abs_two]
    _ ≤ 2 * |(a - b) / 2| * 1 :=
        mul_le_mul (by linarith) h2 (abs_nonneg _) (by positivity)
    _ = |a - b| := by
        rw [abs_div, abs_two]
        ring

namespace KeplerOrbit

/-- Whenever the loop returns a value, it returned because the `isclose` test
fired (the iteration-cap disjunct can never fire: the Python `iterations`
variable stays `0`): the returned `E` is one loop-body step away from some
previous iterate `p` with `isclose E p`. -/
theorem getEccentricAnomalyAux_some_isclose (k : KeplerOrbit) (M : ℝ) :
    ∀ fuel prevE E, getEccentricAnomalyAux k M fuel prevE 0 = some E →
      ∃ p, E = eccStep k M p ∧ isclose 1e-9 accuracy E p := by
  intro fuel
  induction fuel with
  | zero =>
    intro prevE E h
    rw [getEccentricAnomalyAux_zero] at h
    exact absurd h (by simp)
  | succ n ih =>
    intro prevE E h
    rw [getEccentricAnomalyAux_succ_step] at h
    by_cases hg : isclose 1e-9 accuracy (eccStep k M prevE) prevE ∨
        (0 : ℕ) > maxIterations
    · rw [if_pos hg] at h
      have hE := Option.some_injective ℝ h
      rcases hg with hg | hg
      · exact ⟨prevE, hE.symm, hE ▸ hg⟩
      · exact absurd hg (by decide)
    · rw [if_neg hg] at h
      exact ih _ _ h

end KeplerOrbit

open KeplerOrbit in
/-- Claim C6 (amended): whenever the solver converges (every return is a
tolerance stop — the iteration cap never fires), the returned `E` satisfies
the residual bound dictated by `math.isclose` with its default relative
tolerance: `|E - M - e sin E| ≤ e * max(1e-9 * max(|E|, |p|), 1e-10)` where
`p` is the previous iterate; the claimed absolute bound
`|E - M - e sin E| < 1e-9` is recovered whenever `max(|E|, |p|) ≤ 1`. -/
theorem converged_root_residual (k : KeplerOrbit) (M : ℝ) (fuel : ℕ) (E : ℝ)
    (he0 : 0 ≤ k.e) (he1 : k.e < 0.99)
    (h : getEccentricAnomaly k M fuel = some E) :
    ∃ p, E = M + k.e * Real.sin p ∧ isclose 1e-9 accuracy E p ∧
      |E - M - k.e * Real.sin E| ≤
        k.e * max (1e-9 * max |E| |p|) accuracy ∧
      (max |E| |p| ≤ 1 → |E - M - k.e * Real.sin E| < 1e-9) := by
  obtain ⟨p, hEp, hcl⟩ :=
    getEccentricAnomalyAux_some_isclose k M fuel M E h
  have hres : E - M - k.e * Real.sin E =
      k.e * (Real.sin p - Real.sin E) := by
    rw [hEp, eccStep]
    ring
  have hbound : |E - M - k.e * Real.sin E| ≤
      k.e * max (1e-9 * max |E| |p|) accuracy := by
    rw [hres, abs_mul, abs_of_nonneg he0]
    apply mul_le_mul_of_nonneg_left _ he0
    calc |Real.sin p - Real.sin E| ≤ |p - E| := abs_sin_sub_sin_le p E
      _ = |E - p| := abs_sub_comm p E
      _ ≤ max (1e-9 * max |E| |p|) accuracy := hcl
  refine ⟨p, by rw [hEp, eccStep], hcl, hbound, ?_⟩
  intro hsmall
  have htol : max (1e-9 * max |E| |p|) accuracy ≤ 1e-9 := by
    apply max_le
    · nlinarith
    · norm_num [accuracy]
  have : k.e * max (1e-9 * max |E| |p|) accuracy ≤ k.e * 1e-9 :=
    mul_le_mul_of_nonneg_left htol he0
  have hlt : k.e * 1e-9 < 1e-9 := by nlinarith
  linarith

open KeplerOrbit in
/-- Witness for the amended claim C6 at the circular orbit with `M = 0`,
where the solver converges at once to `E = 0`. -/
theorem converged_root_residual_witness :
    ((0 : ℝ) ≤ circOrbit.e ∧ circOrbit.e < 0.99 ∧
      getEccentricAnomaly circOrbit 0 1 = some 0) ∧
    ∃ p, (0 : ℝ) = 0 + circOrbit.e * Real.sin p ∧
      isclose 1e-9 accuracy 0 p ∧
      |(0 : ℝ) - 0 - circOrbit.e * Real.sin 0| ≤
        circOrbit.e * max (1e-9 * max |(0 : ℝ)| |p|) accuracy ∧
      (max |(0 : ℝ)| |p| ≤ 1 →
        |(0 : ℝ) - 0 - circOrbit.e * Real.sin 0| < 1e-9) :=
  ⟨⟨by norm_num [circOrbit], by norm_num [circOrbit],
      getEcc_M_zero circOrbit 1 one_ne_zero⟩,
    converged_root_residual circOrbit 0 1 0 (by norm_num [circOrbit])
      (by norm_num [circOrbit]) (getEcc_M_zero circOrbit 1 one_ne_zero)⟩

namespace KeplerOrbit

/-- Test orbit with eccentricity `1/2` for the residual counterexample. -/
noncomputable def bigMOrbit : KeplerOrbit :=
  ⟨1/2, 1, 1, 0, 0, 0, 1, 0, 0, 0, 0⟩

/-- A large mean anomaly, `π/2` plus `10^9` full turns, at which the
relative-tolerance part of `math.isclose` accepts the very first iterate. -/
noncomputable def bigM : ℝ :=
  Real.pi / 2 + ((10 ^ 9 : ℤ) : ℝ) * (2 * Real.pi)

theorem sin_bigM : Real.sin bigM = 1 := by
  rw [bigM, Real.sin_add_int_mul_two_pi, Real.sin_pi_div_two]

theorem bigM_large : (6e9 : ℝ) ≤ bigM := by
  have hpi := Real.pi_gt_three
  rw [bigM]
  push_cast
  nlinarith

theorem getEcc_bigM :
    getEccentricAnomaly bigMOrbit bigM 1 = some (bigM + 1/2) := by
  have hstep : eccStep bigMOrbit bigM bigM = bigM + 1/2 := by
    rw [eccStep, sin_bigM]
    norm_num [bigMOrbit]
  have hguard : isclose 1e-9 accuracy (eccStep bigMOrbit bigM bigM) bigM ∨
      (0 : ℕ) > maxIterations := by
    left
    rw [hstep]
    unfold isclose
    have habs : |bigM + 1/2 - bigM| = 1/2 := by norm_num
    rw [habs]
    refine le_max_of_le_left ?_
    have h1 : bigM ≤ |bigM| := le_abs_self bigM
    have h2 : |bigM| ≤ max |bigM + 1/2| |bigM| := le_max_right _ _
    have hbig := bigM_large
    calc (1/2 : ℝ) ≤ 1e-9 * 6e9 := by norm_num
      _ ≤ 1e-9 * max |bigM + 1/2| |bigM| := by
          apply mul_le_mul_of_nonneg_left _ (by norm_num)
          linarith
  show getEccentricAnomalyAux bigMOrbit bigM (0 + 1) bigM 0 =
    some (bigM + 1/2)
  rw [getEccentricAnomalyAux_succ_step, if_pos hguard, hstep]

theorem sin_bigM_add_half : Real.sin (bigM + 1/2) = Real.cos (1/2) := by
  rw [bigM, show Real.pi / 2 + ((10 ^ 9 : ℤ) : ℝ) * (2 * Real.pi) + 1/2 =
    (1/2 + Real.pi / 2) + ((10 ^ 9 : ℤ) : ℝ) * (2 * Real.pi) by ring,
    Real.sin_add_int_mul_two_pi, Real.sin_add_pi_div_two]

end KeplerOrbit

open KeplerOrbit in
/-- Claim C6 (counterexample): with `e = 1/2 < 0.99` and the large mean
anomaly `M = π/2 + 10^9 * 2π`, the iteration converges — it stops at the very
first pass via the `isclose` tolerance, because the default relative
tolerance `1e-9 * max(|E|, |prevE|)` is about `6.3` there — returning
`E = M + 1/2`, yet the root residual `|E - M - e sin E| = (1 - cos(1/2))/2 ≈
0.061` is far above the claimed `1e-9` bound. -/
theorem converged_residual_can_exceed_bound :
    ((0 : ℝ) ≤ bigMOrbit.e ∧ bigMOrbit.e < 0.99 ∧
      getEccentricAnomaly bigMOrbit bigM 1 = some (bigM + 1/2)) ∧
    ¬ |(bigM + 1/2) - bigM - bigMOrbit.e * Real.sin (bigM + 1/2)| < 1e-9 := by
  refine ⟨⟨by norm_num [bigMOrbit], by norm_num [bigMOrbit], getEcc_bigM⟩, ?_⟩
  rw [not_lt]
  have hval : (bigM + 1/2) - bigM - bigMOrbit.e * Real.sin (bigM + 1/2) =
      1/2 - 1/2 * Real.cos (1/2) := by
    rw [sin_bigM_add_half]
    norm_num [bigMOrbit]
  rw [hval]
  have hcos : Real.cos (1/2) ≤ 1 := Real.cos_le_one _
  have hnn : (0 : ℝ) ≤ 1/2 - 1/2 * Real.cos (1/2) := by linarith
  rw [abs_of_nonneg hnn]
  have heq : Real.sin (1/4) ^ 2 = 1/2 - Real.cos (1/2) / 2 := by
    have h := Real.sin_sq_eq_half_sub (1/4 : ℝ)
    norm_num at h
    exact h
  have hs : (63 : ℝ)/256 < Real.sin (1/4) := by
    have := Real.sin_gt_sub_cube (by norm_num : (0:ℝ) < 1/4)
      (by norm_num : (1/4 : ℝ) ≤ 1)
    nlinarith [this]
  have hsnn : (0 : ℝ) ≤ Real.sin (1/4) := by linarith
  nlinarith [heq, hs, hsnn, sq_nonneg (Real.sin (1/4) - 63/256)]

namespace KeplerOrbit

/-- Test orbit for claim C1: eccentricity `0.99`, inside the documented
domain `[0, 1)`. -/
noncomputable def c1Orbit : KeplerOrbit :=
  ⟨99/100, 1, 1, 0, 0, 0, 1, 0, 0, 0, 0⟩

/-- The iterate sequence of the solver loop for `c1Orbit` at mean anomaly
`1/10000`: `seq 0 = M` is the seed and `seq (n+1) = M + e * sin (seq n)`. -/
noncomputable def c1seq (n : ℕ) : ℝ :=
  (eccStep c1Orbit (1/10000))^[n] (1/10000)

theorem c1seq_succ (n : ℕ) :
    c1seq (n + 1) = 1/10000 + (99/100) * Real.sin (c1seq n) := by
  unfold c1seq
  rw [Function.iterate_succ_apply']
  show eccStep c1Orbit (1/10000) ((eccStep c1Orbit (1/10000))^[n] (1/10000))
    = _
  rw [eccStep]
  norm_num [c1Orbit]

/-- All iterates stay within `[1/10000, 1/100]`: the fixed point of the slow
contraction lies at about `M / (1 - e) = 1/100`. -/
theorem c1seq_bounds : ∀ n, 1/10000 ≤ c1seq n ∧ c1seq n ≤ 1/100 := by
  intro n
  induction n with
  | zero =>
    constructor <;> norm_num [c1seq]
  | succ n ih =>
    obtain ⟨h1, h2⟩ := ih
    rw [c1seq_succ]
    have hpi := Real.pi_gt_three
    have hsin0 : 0 ≤ Real.sin (c1seq n) :=
      Real.sin_nonneg_of_nonneg_of_le_pi (by linarith) (by linarith)
    have habs : |Real.sin (c1seq n)| ≤ |c1seq n| := Real.abs_sin_le_abs
    have hsin1 : Real.sin (c1seq n) ≤ c1seq n := by
      have h3 := le_abs_self (Real.sin (c1seq n))
      have h4 : |c1seq n| = c1seq n := abs_of_nonneg (by linarith)
      linarith
    constructor <;> nlinarith

set_option maxHeartbeats 1000000 in
/-- Successive differences of the iterates shrink no faster than a factor
`49/50` per pass, starting from about `9.9e-5`: after `n` passes the
difference is still at least `(49/50)^n * 9e-5`. -/
theorem c1seq_diff_lb :
    ∀ n, (49/50 : ℝ)^n * (9/100000) ≤ c1seq (n + 1) - c1seq n := by
  intro n
  induction n with
  | zero =>
    have h := Real.sin_gt_sub_cube (show (0:ℝ) < 1/10000 by norm_num)
      (by norm_num)
    have hs0 : c1seq 0 = 1/10000 := by norm_num [c1seq]
    rw [c1seq_succ, hs0]
    nlinarith
  | succ n ih =>
    obtain ⟨ha1, ha2⟩ := c1seq_bounds n
    obtain ⟨hb1, hb2⟩ := c1seq_bounds (n + 1)
    have hd0 : 0 < c1seq (n + 1) - c1seq n :=
      lt_of_lt_of_le (by positivity) ih
    have hdiff : c1seq (n + 2) - c1seq (n + 1) =
        (99/100) * (Real.sin (c1seq (n + 1)) - Real.sin (c1seq n)) := by
      rw [c1seq_succ, c1seq_succ]
      ring
    have hsin_sub : Real.sin (c1seq (n + 1)) - Real.sin (c1seq n) =
        2 * Real.sin ((c1seq (n + 1) - c1seq n) / 2) *
          Real.cos ((c1seq (n + 1) + c1seq n) / 2) :=
      Real.sin_sub_sin _ _
    set u := (c1seq (n + 1) - c1seq n) / 2 with hu
    set v := (c1seq (n + 1) + c1seq n) / 2 with hv
    have hu0 : 0 < u := by rw [hu]; linarith
    have hu1 : u ≤ 1/200 := by rw [hu]; linarith
    have hv0 : 0 ≤ v := by rw [hv]; linarith
    have hv1 : v ≤ 1/100 := by rw [hv]; linarith
    have hsinu : u - u^3/4 < Real.sin u :=
      Real.sin_gt_sub_cube hu0 (le_trans hu1 (by norm_num))
    have hcosv : 1 - v^2/2 ≤ Real.cos v := Real.one_sub_sq_div_two_le_cos
    have husq : u^2 ≤ 1/40000 := by nlinarith
    have hvsq : v^2 ≤ 1/10000 := by nlinarith
    have hucube : u^3 ≤ u * (1/40000) := by nlinarith
    have hsinu0 : 0 ≤ u - u^3/4 := by nlinarith
    have hcos0 : (0:ℝ) ≤ 1 - v^2/2 := by nlinarith
    have hprod : (u - u^3/4) * (1 - v^2/2) ≤ Real.sin u * Real.cos v :=
      mul_le_mul (le_of_lt hsinu) hcosv hcos0 (by nlinarith)
    have huv2 : u * v^2 ≤ u * (1/10000) :=
      mul_le_mul_of_nonneg_left hvsq (le_of_lt hu0)
    have hu3v2 : 0 ≤ u^3 * v^2 := by positivity
    have hexp : (u - u^3/4) * (1 - v^2/2) =
        u - u*v^2/2 - u^3/4 + u^3*v^2/8 := by ring
    have hlow : u * (9999/10000) ≤ (u - u^3/4) * (1 - v^2/2) := by
      rw [hexp]
      linarith only [huv2, hucube, hu3v2, hu0.le]
    have hkey : (49/50) * (2 * u) ≤
        (99/100) * (2 * Real.sin u * Real.cos v) := by
      have h1 : u * (9999/10000) ≤ Real.sin u * Real.cos v :=
        le_trans hlow hprod
      linarith only [h1, hu0.le]
    calc (49/50 : ℝ)^(n+1) * (9/100000)
        = (49/50) * ((49/50)^n * (9/100000)) := by ring
      _ ≤ (49/50) * (c1seq (n + 1) - c1seq n) :=
          mul_le_mul_of_nonneg_left ih (by norm_num)
      _ = (49/50) * (2 * u) := by rw [hu]; ring
      _ ≤ (99/100) * (2 * Real.sin u * Real.cos v) := hkey
      _ = c1seq (n + 2) - c1seq (n + 1) := by rw [hdiff, hsin_sub]

/-- For the first 102 passes the `isclose` stopping test never fires: the
difference between successive iterates stays above `1.1e-5`, while the
tolerance is at most `1e-10` (all iterates are below `1/100`, so the
relative part contributes at most `1e-11`). -/
theorem c1seq_not_isclose :
    ∀ n, n ≤ 101 → ¬ isclose 1e-9 accuracy (c1seq (n + 1)) (c1seq n) := by
  intro n hn hcl
  have hd := c1seq_diff_lb n
  have hpow : ((49:ℝ)/50)^101 ≤ (49/50)^n :=
    pow_le_pow_of_le_one (by norm_num) (by norm_num) hn
  have h8 : (1/8 : ℝ) ≤ (49/50)^101 := by norm_num
  obtain ⟨ha1, ha2⟩ := c1seq_bounds n
  obtain ⟨hb1, hb2⟩ := c1seq_bounds (n + 1)
  have hdpos : (0:ℝ) < (49/50)^n * (9/100000) := by positivity
  unfold isclose accuracy at hcl
  rw [abs_of_nonneg (by linarith : (0:ℝ) ≤ c1seq (n + 1) - c1seq n),
    abs_of_nonneg (by linarith : (0:ℝ) ≤ c1seq (n + 1)),
    abs_of_nonneg (by linarith : (0:ℝ) ≤ c1seq n)] at hcl
  have hmax1 : max (c1seq (n + 1)) (c1seq n) ≤ 1/100 := max_le hb2 ha2
  have hmax0 : (0:ℝ) ≤ max (c1seq (n + 1)) (c1seq n) :=
    le_trans (by linarith) (le_max_right _ _)
  have htol : max (1e-9 * max (c1seq (n + 1)) (c1seq n)) (1e-10 : ℝ) ≤
      1e-10 := by
    apply max_le _ le_rfl
    nlinarith
  have hgap : (1/8 : ℝ) * (9/100000) ≤ (49/50)^n * (9/100000) := by
    nlinarith
  linarith

/-- The solver loop for `c1Orbit` at mean anomaly `1/10000` is still running
after every prefix of 102 passes. -/
theorem c1_aux_none :
    ∀ j n, n + j ≤ 102 →
      getEccentricAnomalyAux c1Orbit (1/10000) j (c1seq n) 0 = none := by
  intro j
  induction j with
  | zero =>
    intro n _
    exact getEccentricAnomalyAux_zero _ _ _ _
  | succ j ih =>
    intro n hn
    rw [getEccentricAnomalyAux_succ_step]
    have hstep : eccStep c1Orbit (1/10000) (c1seq n) = c1seq (n + 1) := by
      unfold c1seq
      rw [Function.iterate_succ_apply']
    rw [hstep, if_neg]
    · exact ih (n + 1) (by omega)
    · exact not_or.mpr ⟨c1seq_not_isclose n (by omega), by decide⟩

end KeplerOrbit

open KeplerOrbit in
/-- Claim C1 (failing input): with `e = 0.99 ∈ [0, 1)` and mean anomaly
`M = 1/10000`, the loop of `_getEccentricAnomaly` has not returned after 102
passes — more than the claimed cap of `_maxIterations = 100` — because the
Python local `iterations` is initialised to `0` and never incremented, so the
cap test `iterations > _maxIterations` can never fire and the loop runs until
the tolerance is met (which at contraction rate `e = 0.99` takes thousands of
passes). -/
theorem eccentric_anomaly_runs_past_cap :
    (0:ℝ) ≤ c1Orbit.e ∧ c1Orbit.e < 1 ∧ maxIterations = 100 ∧
    getEccentricAnomaly c1Orbit (1/10000) 102 = none := by
  refine ⟨by norm_num [c1Orbit], by norm_num [c1Orbit], rfl, ?_⟩
  have h := c1_aux_none 102 0 (by omega)
  exact h
